import Mathlib

/-!
Shallow embedding of the temple-finder core (catalog indexer, relevance
scoring, filter predicate, query pipeline, insight aggregator) from
`src/app/components/TempleFinder.tsx`, together with proofs of the spec's
testable properties.

Strings are modelled as `List Char`; JavaScript numbers carrying scores and
averages are modelled as `ℚ` (the arithmetic used is exact on the values
involved); the not-a-number value that the display layer treats as the
"unavailable" sentinel is modelled by `Option` (`none` = NaN).  JavaScript's
`Array.prototype.sort`, which is required to be stable, is modelled by
`List.insertionSort` with the relation "comparator ≤ 0"; `Set` insertion
order and plain-object key insertion order are modelled by first-seen
deduplication and an insertion-ordered association list respectively.
-/

namespace TempleFinder

/-- A string, modelled as its list of characters. -/
abbrev Str := List Char

/-- The `Temple` record from `src/lib/data/temples.ts` as consumed by
`TempleFinder.tsx`. -/
structure Temple where
  id : Nat
  name : Str
  city : Str
  country : Str
  description : Str
  region : Str
  tradition : Str
  environment : Str
  founded : Int
  highlights : List Str
  features : List Str
  significanceScore : ℚ
  visitingHours : Str := []
  bestVisit : Str := []
deriving DecidableEq

/-- Source line `const ALL_OPTION = 'All'`. -/
def ALL_OPTION : Str := ['A', 'l', 'l']

/-- Source `type SortOption = 'relevance' | 'oldest' | 'newest' | 'significance'`. -/
inductive SortOption where
  | relevance
  | oldest
  | newest
  | significance
deriving DecidableEq

/-- Case folding, `String.prototype.toLowerCase`. -/
def lower (s : Str) : Str := s.map Char.toLower

/-- Trim, `String.prototype.trim`: drop leading and trailing whitespace. -/
def trimStr (s : Str) : Str :=
  ((s.dropWhile Char.isWhitespace).reverse.dropWhile Char.isWhitespace).reverse

/-- Normalization `searchTerm.trim().toLowerCase()` (line 104 of `TempleFinder.tsx`). -/
def normalizeQuery (s : Str) : Str := lower (trimStr s)

/-- Join with spaces, `Array.prototype.join(' ')`. -/
def joinSpace (xs : List Str) : Str := List.intercalate [' '] xs

/-- The combined searchable text of lines 50–59: name, city, country,
description, joined highlights and joined features, joined with spaces and
case-folded. -/
def haystacks (temple : Temple) : Str :=
  lower (joinSpace [temple.name, temple.city, temple.country,
    temple.description, joinSpace temple.highlights, joinSpace temple.features])

/-- Scoring, `scoreTemple` (lines 44–74). -/
def scoreTemple (temple : Temple) (normalizedSearch : Str) : ℚ :=
  let base := temple.significanceScore
  if normalizedSearch = [] then base
  else if ¬ normalizedSearch <:+: haystacks temple then base * (7/10)
  else
    let nameMatch : ℚ := if normalizedSearch <:+: lower temple.name then 25 else 0
    let cityMatch : ℚ := if normalizedSearch <:+: lower temple.city then 15 else 0
    let featureMatch : ℚ :=
      if ∃ f ∈ temple.features, normalizedSearch <:+: lower f then 10 else 0
    base + nameMatch + cityMatch + featureMatch

/-- The four facet selections passed to `matchesFilters` (lines 78–83). -/
structure FilterOptions where
  region : Str
  tradition : Str
  feature : Str
  environment : Str
deriving DecidableEq

/-- Filtering, `matchesFilters` (lines 76–94). -/
def matchesFilters (temple : Temple) (options : FilterOptions) : Bool :=
  let regionMatch := options.region == ALL_OPTION || temple.region == options.region
  let traditionMatch := options.tradition == ALL_OPTION || temple.tradition == options.tradition
  let environmentMatch :=
    options.environment == ALL_OPTION || temple.environment == options.environment
  let featureMatch := options.feature == ALL_OPTION || temple.features.contains options.feature
  regionMatch && traditionMatch && environmentMatch && featureMatch

/-- The caller-owned query state (component state, lines 97–102). -/
structure QueryState where
  searchTerm : Str
  selectedRegion : Str
  selectedTradition : Str
  selectedEnvironment : Str
  selectedFeature : Str
  sortOrder : SortOption

/-- The `FilterOptions` record built from the query state (lines 113–118). -/
def selections (qs : QueryState) : FilterOptions :=
  { region := qs.selectedRegion, tradition := qs.selectedTradition,
    feature := qs.selectedFeature, environment := qs.selectedEnvironment }

/-- The relation "the sort comparator of lines 120–131 returns ≤ 0 on
`(a, b)`", i.e. a stable sort may keep `a` before `b`. -/
def sortKeep (so : SortOption) (a b : Temple × ℚ) : Prop :=
  match so with
  | .oldest => a.1.founded ≤ b.1.founded
  | .newest => b.1.founded ≤ a.1.founded
  | .significance => b.1.significanceScore ≤ a.1.significanceScore
  | .relevance => b.2 ≤ a.2

instance sortKeepDecidable (so : SortOption) : DecidableRel (sortKeep so) := by
  intro a b
  cases so <;> simp only [sortKeep] <;> infer_instance

instance sortKeepTotal (so : SortOption) : IsTotal (Temple × ℚ) (sortKeep so) := by
  constructor
  intro a b
  cases so <;> simp only [sortKeep] <;> exact le_total _ _

instance sortKeepTrans (so : SortOption) : IsTrans (Temple × ℚ) (sortKeep so) := by
  constructor
  intro a b c hab hbc
  cases so <;> simp only [sortKeep] at * <;> exact le_trans (by assumption) (by assumption)

/-- The `rankedTemples` pipeline (lines 106–132): score every temple with
the normalized search term, retain those passing the filters, and stably
sort by the selected comparator. -/
def rankedTemples (catalog : List Temple) (qs : QueryState) : List (Temple × ℚ) :=
  let normalizedSearch := normalizeQuery qs.searchTerm
  ((catalog.map (fun temple => (temple, scoreTemple temple normalizedSearch))).filter
      (fun p => matchesFilters p.1 (selections qs))).insertionSort
    (sortKeep qs.sortOrder)

/-- First-seen deduplication: the enumeration order of a JavaScript `Set`
built by inserting the elements of a list in order. -/
def dedupFirst {α : Type} [DecidableEq α] : List α → List α
  | [] => []
  | a :: l => a :: dedupFirst (l.filter (fun b => b ≠ a))
termination_by l => l.length
decreasing_by
  simp only [List.length_cons]
  exact Nat.lt_succ_of_le (List.length_filter_le _ _)

/-- The `regions` facet list (lines 20–23): the `All` sentinel followed by
the distinct regions in first-seen catalog order. -/
def regions (catalog : List Temple) : List Str :=
  ALL_OPTION :: dedupFirst (catalog.map (fun temple => temple.region))

/-- The `traditions` facet list (lines 24–27). -/
def traditions (catalog : List Temple) : List Str :=
  ALL_OPTION :: dedupFirst (catalog.map (fun temple => temple.tradition))

/-- The `environments` facet list (lines 28–31). -/
def environments (catalog : List Temple) : List Str :=
  ALL_OPTION :: dedupFirst (catalog.map (fun temple => temple.environment))

/-- The `features` facet list (lines 32–42): flatten all feature lists,
dedupe in first-seen order, then sort with the default (lexicographic)
string order. -/
def features (catalog : List Temple) : List Str :=
  ALL_OPTION ::
    (dedupFirst (catalog.flatMap (fun temple => temple.features))).insertionSort (· ≤ ·)

/-- One update of the insertion-ordered count accumulator, the semantics of
`acc[k] = (acc[k] ?? 0) + 1` on a plain object (and of `Map.prototype.set`
with a get-or-zero default): an existing key is bumped in place, a new key
is appended. -/
def bump {α : Type} [DecidableEq α] : List (α × Nat) → α → List (α × Nat)
  | [], k => [(k, 1)]
  | (k', n) :: rest, k => if k = k' then (k', n + 1) :: rest else (k', n) :: bump rest k

/-- The occurrence-count accumulator over a key list, in insertion order. -/
def countsOf {α : Type} [DecidableEq α] (ks : List α) : List (α × Nat) :=
  ks.foldl bump []

/-- Top entry, `entries(...).sort((a, b) => b[1] - a[1])[0]?.[0]`: stably sort the
count entries by descending count and take the first key, if any. -/
def pickTop {α : Type} [DecidableEq α] (entries : List (α × Nat)) : Option α :=
  (entries.insertionSort (fun a b => b.2 ≤ a.2)).head?.map Prod.fst

/-- Aggregate `mostCommonTradition` (lines 144–150). -/
def mostCommonTradition (results : List (Temple × ℚ)) : Option Str :=
  pickTop (countsOf (results.map (fun p => p.1.tradition)))

/-- Aggregate `standoutFeature` (lines 156–166). -/
def standoutFeature (results : List (Temple × ℚ)) : Option Str :=
  pickTop (countsOf (results.flatMap (fun p => p.1.features)))

/-- Aggregate `uniqueCountries` (line 143): the size of the `Set` of countries. -/
def uniqueCountries (results : List (Temple × ℚ)) : Nat :=
  (dedupFirst (results.map (fun p => p.1.country))).length

/-- Rounding, `Math.round`: round half toward positive infinity. -/
def jsRound (q : ℚ) : Int := ⌊q + 1/2⌋

/-- Aggregate `averageFoundedYear` (lines 152–154, 171): the summed founding years
divided by `Math.max(length, 1)`, rounded.  The only way the JavaScript
expression can produce the display layer's NaN sentinel is a `0 / 0`
division, modelled here by the zero-denominator branch returning `none`. -/
def averageFoundedYear (results : List (Temple × ℚ)) : Option Int :=
  let total : Int := results.foldl (fun acc p => acc + p.1.founded) 0
  let denom : Nat := max results.length 1
  if denom = 0 then none else some (jsRound ((total : ℚ) / (denom : ℚ)))

/-- The `insights` record (lines 142–174). -/
structure Insights where
  uniqueCountries : Nat
  mostCommonTradition : Option Str
  averageFoundedYear : Option Int
  standoutFeature : Option Str
deriving DecidableEq

/-- Record `aggregate(results)`, the insight aggregator (lines 142–174). -/
def aggregateInsights (results : List (Temple × ℚ)) : Insights :=
  { uniqueCountries := uniqueCountries results,
    mostCommonTradition := mostCommonTradition results,
    averageFoundedYear := averageFoundedYear results,
    standoutFeature := standoutFeature results }

/-! ### Sample data used by the concrete witnesses -/

/-- A sample temple whose name, city and first feature all contain `'a'`. -/
def sampleTempleA : Temple :=
  { id := 1, name := ['a', 'b'], city := ['a'], country := ['u'], description := [],
    region := ['r'], tradition := ['t'], environment := ['e'], founded := 1100,
    highlights := [], features := [['a', 'b']], significanceScore := 10 }

/-- A second sample temple with the same founding year and significance as
`sampleTempleA` but disjoint searchable text. -/
def sampleTempleB : Temple :=
  { id := 2, name := ['z'], city := ['y'], country := ['v'], description := [],
    region := ['r'], tradition := ['s'], environment := ['e'], founded := 1100,
    highlights := [], features := [['z']], significanceScore := 10 }

/-- A query state with a given search term and sort order and no facet
filters applied. -/
def sampleQuery (term : Str) (so : SortOption) : QueryState :=
  { searchTerm := term, selectedRegion := ALL_OPTION, selectedTradition := ALL_OPTION,
    selectedEnvironment := ALL_OPTION, selectedFeature := ALL_OPTION, sortOrder := so }

/-! ### Basic facts about the scoring function -/

lemma lower_append (a b : Str) : lower (a ++ b) = lower a ++ lower b :=
  List.map_append _ _ _

lemma sub_trans {q a b : Str} (h1 : q <:+: a) (h2 : a <:+: b) : q <:+: b := by
  obtain ⟨u, v, rfl⟩ := h1
  obtain ⟨x, y, rfl⟩ := h2
  exact ⟨x ++ u, v ++ y, by simp⟩

lemma exists_rest_haystacks (t : Temple) : ∃ rest, haystacks t = lower t.name ++ rest := by
  refine ⟨lower (' ' :: (t.city ++ ' ' :: (t.country ++ ' ' :: (t.description ++ ' ' ::
      (joinSpace t.highlights ++ ' ' :: joinSpace t.features))))), ?_⟩
  unfold haystacks
  rw [show joinSpace [t.name, t.city, t.country, t.description, joinSpace t.highlights,
        joinSpace t.features] = t.name ++ (' ' :: (t.city ++ ' ' :: (t.country ++ ' ' ::
        (t.description ++ ' ' :: (joinSpace t.highlights ++ ' ' :: joinSpace t.features))))) by
      simp [joinSpace, List.intercalate, List.intersperse]]
  exact lower_append _ _

/-- A query matching the case-folded name is a substring of the combined
searchable text, since the name is its first component. -/
lemma name_sub_haystacks (t : Temple) (q : Str) (h : q <:+: lower t.name) :
    q <:+: haystacks t := by
  obtain ⟨rest, hrest⟩ := exists_rest_haystacks t
  rw [hrest]
  exact sub_trans h ⟨[], rest, by simp⟩

lemma scoreTemple_empty_eq (t : Temple) : scoreTemple t [] = t.significanceScore := by
  simp [scoreTemple]

lemma scoreTemple_miss_eq (t : Temple) (q : Str) (hq : q ≠ [])
    (hm : ¬ q <:+: haystacks t) : scoreTemple t q = t.significanceScore * (7/10) := by
  simp [scoreTemple, hq, hm]

lemma scoreTemple_hit_eq (t : Temple) (q : Str) (hq : q ≠ []) (hh : q <:+: haystacks t) :
    scoreTemple t q = t.significanceScore
      + (if q <:+: lower t.name then (25:ℚ) else 0)
      + (if q <:+: lower t.city then (15:ℚ) else 0)
      + (if ∃ f ∈ t.features, q <:+: lower f then (10:ℚ) else 0) := by
  simp [scoreTemple, hq, hh]

/-! ### Claims about scoring -/

/-- C9: for every temple and every query whose trimmed, case-folded form is
empty, the score is the temple's significance score unchanged. -/
theorem claim_C9_empty_query_score (t : Temple) (s : Str)
    (h : normalizeQuery s = []) : scoreTemple t (normalizeQuery s) = t.significanceScore := by
  rw [h]
  exact scoreTemple_empty_eq t

/-- Witness for C9: a whitespace-only search term normalizes to the empty
query, and the sample temple keeps its significance score. -/
theorem claim_C9_witness :
    scoreTemple sampleTempleA (normalizeQuery [' ', '\t']) = sampleTempleA.significanceScore :=
  claim_C9_empty_query_score sampleTempleA [' ', '\t'] (by decide)

/-- C2: when the non-empty normalized query misses the combined searchable
text, the score is exactly `significanceScore * 0.7`, and the temple is not
excluded: it still appears in the pipeline output whenever it passes the
facet filters. -/
theorem claim_C2_miss_penalty (t : Temple) (q : Str) (hq : q ≠ [])
    (hmiss : ¬ q <:+: haystacks t) :
    scoreTemple t q = t.significanceScore * (7/10) ∧
      ∀ (catalog : List Temple) (qs : QueryState),
        normalizeQuery qs.searchTerm = q → t ∈ catalog →
        matchesFilters t (selections qs) = true →
        (t, t.significanceScore * (7/10)) ∈ rankedTemples catalog qs := by
  have hs := scoreTemple_miss_eq t q hq hmiss
  refine ⟨hs, ?_⟩
  intro catalog qs hnorm ht hmatch
  simp only [rankedTemples, List.mem_insertionSort, List.mem_filter]
  exact ⟨List.mem_map.mpr ⟨t, ht, by rw [hnorm, hs]⟩, hmatch⟩

/-- Witness for C2: the query `q` misses `sampleTempleA` entirely; its score
is `10 * 0.7` and it still appears in the results of an unfiltered query. -/
theorem claim_C2_witness :
    scoreTemple sampleTempleA ['q'] = sampleTempleA.significanceScore * (7/10) ∧
      (sampleTempleA, sampleTempleA.significanceScore * (7/10)) ∈
        rankedTemples [sampleTempleA] (sampleQuery ['q'] SortOption.relevance) := by
  have h := claim_C2_miss_penalty sampleTempleA ['q'] (by decide) (by decide)
  exact ⟨h.1, h.2 [sampleTempleA] (sampleQuery ['q'] SortOption.relevance)
    (by decide) (by decide) (by decide)⟩

/-- C3: when the non-empty normalized query hits the combined searchable
text, the score is the significance score plus independent additive bonuses
of 25 (name), 15 (city) and 10 (some single feature); a name+city+feature
match yields base + 50, and a name match alone already guarantees a score of
at least base + 25. -/
theorem claim_C3_hit_bonuses (t : Temple) (q : Str) (hq : q ≠ []) :
    (q <:+: haystacks t →
      scoreTemple t q = t.significanceScore
        + (if q <:+: lower t.name then (25:ℚ) else 0)
        + (if q <:+: lower t.city then (15:ℚ) else 0)
        + (if ∃ f ∈ t.features, q <:+: lower f then (10:ℚ) else 0)) ∧
    (q <:+: lower t.name → q <:+: lower t.city → (∃ f ∈ t.features, q <:+: lower f) →
      scoreTemple t q = t.significanceScore + 50) ∧
    (q <:+: lower t.name → t.significanceScore + 25 ≤ scoreTemple t q) := by
  refine ⟨fun hh => scoreTemple_hit_eq t q hq hh, fun hn hc hf => ?_, fun hn => ?_⟩
  · rw [scoreTemple_hit_eq t q hq (name_sub_haystacks t q hn), if_pos hn, if_pos hc, if_pos hf]
    ring
  · rw [scoreTemple_hit_eq t q hq (name_sub_haystacks t q hn), if_pos hn]
    split_ifs <;> linarith

/-- Witness for C3: the query `a` matches name, city and a feature of
`sampleTempleA`, so its score is base + 50, and in particular ≥ base + 25. -/
theorem claim_C3_witness :
    scoreTemple sampleTempleA ['a'] = sampleTempleA.significanceScore + 50 ∧
      sampleTempleA.significanceScore + 25 ≤ scoreTemple sampleTempleA ['a'] := by
  have h := claim_C3_hit_bonuses sampleTempleA ['a'] (by decide)
  exact ⟨h.2.1 (by decide) (by decide) (by decide), h.2.2 (by decide)⟩

/-- C5: the filter predicate passes exactly when all four dimension
conditions hold conjunctively; each conjunct mentions only its own
selection, so changing one dimension never affects another. -/
theorem claim_C5_filter_conjunctive (t : Temple) (o : FilterOptions) :
    matchesFilters t o = true ↔
      ((o.region = ALL_OPTION ∨ t.region = o.region) ∧
       (o.tradition = ALL_OPTION ∨ t.tradition = o.tradition) ∧
       (o.environment = ALL_OPTION ∨ t.environment = o.environment) ∧
       (o.feature = ALL_OPTION ∨ o.feature ∈ t.features)) := by
  simp only [matchesFilters, Bool.and_eq_true, Bool.or_eq_true, beq_iff_eq, List.elem_iff]
  tauto

/-- C1 counterexample: on the empty result list the aggregator's average
founding year is a plain number (0), not the NaN value that the display
layer renders as the "unavailable" sentinel. -/
theorem claim_C1_counterexample :
    (aggregateInsights []).averageFoundedYear ≠ none := by
  simp [aggregateInsights, averageFoundedYear]

/-- C1 amended: `aggregate([])` returns the "unavailable" sentinel for
`mostCommonTradition` and `standoutFeature` and `0` for `uniqueCountries`,
but `averageFoundedYear` is the plain number `0` (the `Math.max(·, 1)`
guard prevents the 0/0 NaN sentinel). -/
theorem claim_C1_amended :
    aggregateInsights [] =
      { uniqueCountries := 0, mostCommonTradition := none,
        averageFoundedYear := some 0, standoutFeature := none } := by
  have h1 : uniqueCountries [] = 0 := by simp [uniqueCountries, dedupFirst]
  have h2 : mostCommonTradition ([] : List (Temple × ℚ)) = none := by decide
  have h3 : averageFoundedYear ([] : List (Temple × ℚ)) = some 0 := by
    have hfl : ⌊(1:ℚ)/2⌋ = 0 := by
      rw [Int.floor_eq_iff]
      norm_num
    simp [averageFoundedYear, jsRound] at hfl ⊢
    norm_num [hfl]
  have h4 : standoutFeature ([] : List (Temple × ℚ)) = none := by decide
  simp [aggregateInsights, h1, h2, h3, h4]

/-! ### The query pipeline: membership and stability -/

lemma map_fst_filter_map (catalog : List Temple) (f : Temple → ℚ) (pred : Temple → Bool) :
    ((catalog.map (fun t => (t, f t))).filter (fun p => pred p.1)).map Prod.fst
      = catalog.filter pred := by
  induction catalog with
  | nil => simp
  | cons t rest ih =>
    simp only [List.map_cons, List.filter_cons]
    by_cases h : pred t <;> simp [h, ih]

/-- The temples underlying the pipeline output are, up to ordering, exactly
the catalog temples passing the filter predicate. -/
lemma rankedTemples_map_fst_perm (catalog : List Temple) (qs : QueryState) :
    ((rankedTemples catalog qs).map Prod.fst).Perm
      (catalog.filter (fun t => matchesFilters t (selections qs))) := by
  have hp := (List.perm_insertionSort (sortKeep qs.sortOrder)
      ((catalog.map (fun t => (t, scoreTemple t (normalizeQuery qs.searchTerm)))).filter
        (fun p => matchesFilters p.1 (selections qs)))).map Prod.fst
  rw [map_fst_filter_map catalog (fun t => scoreTemple t (normalizeQuery qs.searchTerm))
    (fun t => matchesFilters t (selections qs))] at hp
  simp only [rankedTemples]
  exact hp

/-- C7: a temple appears in the pipeline output iff it is in the catalog and
passes the filter predicate; the search term never affects membership (two
runs differing only in `searchTerm` yield the same multiset of temples). -/
theorem claim_C7_membership_filter_only (catalog : List Temple) (qs : QueryState) (t : Temple) :
    (t ∈ (rankedTemples catalog qs).map Prod.fst ↔
      t ∈ catalog ∧ matchesFilters t (selections qs) = true) ∧
    ∀ s' : Str,
      ((rankedTemples catalog { qs with searchTerm := s' }).map Prod.fst).Perm
        ((rankedTemples catalog qs).map Prod.fst) := by
  constructor
  · rw [(rankedTemples_map_fst_perm catalog qs).mem_iff]
    exact List.mem_filter
  · intro s'
    have h1 := rankedTemples_map_fst_perm catalog { qs with searchTerm := s' }
    have h2 := rankedTemples_map_fst_perm catalog qs
    exact h1.trans h2.symm

/-- C6: under `relevance` order the sort is stable: two retained temples
with equal scores appear in the output in their catalog-relative order. -/
theorem claim_C6_relevance_stable (catalog : List Temple) (qs : QueryState)
    (hso : qs.sortOrder = SortOption.relevance)
    (a b : Temple) (l1 l2 l3 : List Temple)
    (hcat : catalog = l1 ++ a :: (l2 ++ b :: l3))
    (ha : matchesFilters a (selections qs) = true)
    (hb : matchesFilters b (selections qs) = true)
    (hscore : scoreTemple a (normalizeQuery qs.searchTerm)
      = scoreTemple b (normalizeQuery qs.searchTerm)) :
    [(a, scoreTemple a (normalizeQuery qs.searchTerm)),
      (b, scoreTemple b (normalizeQuery qs.searchTerm))].Sublist
      (rankedTemples catalog qs) := by
  set nq := normalizeQuery qs.searchTerm with hdef
  set pa : Temple × ℚ := (a, scoreTemple a nq) with hpa
  set pb : Temple × ℚ := (b, scoreTemple b nq) with hpb
  have hmap : [pa, pb].Sublist
      (catalog.map (fun temple => (temple, scoreTemple temple nq))) := by
    rw [hcat]
    simp only [List.map_append, List.map_cons]
    have h4 : [pb].Sublist
        (List.map (fun temple => (temple, scoreTemple temple nq)) l2
          ++ pb :: List.map (fun temple => (temple, scoreTemple temple nq)) l3) :=
      (List.Sublist.cons₂ pb (List.nil_sublist _)).trans (List.sublist_append_right _ _)
    exact (List.Sublist.cons₂ pa h4).trans (List.sublist_append_right _ _)
  have hfilter : [pa, pb].Sublist
      ((catalog.map (fun temple => (temple, scoreTemple temple nq))).filter
        (fun p => matchesFilters p.1 (selections qs))) := by
    have := List.Sublist.filter (fun p => matchesFilters p.1 (selections qs)) hmap
    rwa [show List.filter (fun p => matchesFilters p.1 (selections qs)) [pa, pb] = [pa, pb] by
      simp [List.filter, hpa, hpb, ha, hb]] at this
  have hr : sortKeep SortOption.relevance pa pb := by
    simp only [sortKeep, hpa, hpb]
    exact le_of_eq hscore.symm
  simp only [rankedTemples, hso, ← hdef]
  exact List.pair_sublist_insertionSort hr hfilter

/-- Witness for C6: the two sample temples tie on score under the empty
query, and the output keeps them in catalog order. -/
theorem claim_C6_witness :
    [(sampleTempleA, scoreTemple sampleTempleA (normalizeQuery [])),
      (sampleTempleB, scoreTemple sampleTempleB (normalizeQuery []))].Sublist
      (rankedTemples [sampleTempleA, sampleTempleB]
        (sampleQuery [] SortOption.relevance)) :=
  claim_C6_relevance_stable [sampleTempleA, sampleTempleB]
    (sampleQuery [] SortOption.relevance) rfl sampleTempleA sampleTempleB [] [] []
    rfl (by decide) (by decide) (by decide)

/-! ### Reversal of the `oldest` sort versus the `newest` sort -/

/-- A third sample temple whose founding year differs from the others. -/
def sampleTempleC : Temple :=
  { id := 3, name := ['c'], city := ['c'], country := ['w'], description := [],
    region := ['r'], tradition := ['t'], environment := ['e'], founded := 800,
    highlights := [], features := [['c']], significanceScore := 5 }

lemma append_cons_eq_cons_append {α : Type} (a : α) (u v : List α)
    (h : ∀ x ∈ u, x = a) : u ++ a :: v = a :: (u ++ v) := by
  induction u with
  | nil => rfl
  | cons x u ih =>
    simp only [List.mem_cons, forall_eq_or_imp] at h
    obtain ⟨rfl, h⟩ := h
    simp only [List.cons_append]
    rw [ih h]

/-- Two sorted permutations of each other are equal, assuming antisymmetry
of the sort relation on the members of the list (rather than globally). -/
lemma eq_of_perm_of_sorted_mem {α : Type} {r : α → α → Prop} :
    ∀ {l₁ l₂ : List α},
      (∀ x ∈ l₁, ∀ y ∈ l₁, r x y → r y x → x = y) →
      l₁.Perm l₂ → l₁.Sorted r → l₂.Sorted r → l₁ = l₂ := by
  intro l₁
  induction l₁ with
  | nil => intro l₂ _ hp _ _; exact hp.nil_eq
  | cons a t ih =>
    intro l₂ anti hp hs₁ hs₂
    have ha2 : a ∈ l₂ := hp.subset (List.mem_cons_self a t)
    obtain ⟨u, v, rfl⟩ := List.append_of_mem ha2
    have hp' : t.Perm (u ++ v) := (List.perm_cons a).1 (hp.trans List.perm_middle)
    have hsuv : (u ++ v).Sorted r := hs₂.sublist (by simp)
    have anti' : ∀ x ∈ t, ∀ y ∈ t, r x y → r y x → x = y := fun x hx y hy =>
      anti x (List.mem_cons_of_mem a hx) y (List.mem_cons_of_mem a hy)
    have ht : t = u ++ v := ih anti' hp' hs₁.of_cons hsuv
    subst ht
    have hall : ∀ x ∈ u, x = a := by
      intro x hxu
      have hxa : r x a :=
        (List.pairwise_append.1 hs₂).2.2 x hxu a (List.mem_cons_self a v)
      have hxmem : x ∈ a :: (u ++ v) :=
        hp.symm.subset (List.mem_append_left _ hxu)
      rcases List.mem_cons.1 hxmem with h | h
      · exact h
      · exact anti x hxmem a (List.mem_cons_self _ _) hxa
          (List.rel_of_sorted_cons hs₁ x h)
    rw [append_cons_eq_cons_append a u v hall]

/-- C4 counterexample: with two temples sharing a founding year, reversing
the `oldest` ordering does not give the `newest` ordering — the stable sort
keeps ties in catalog order under both, so reversal flips the tie. -/
theorem claim_C4_counterexample :
    ¬ ((rankedTemples [sampleTempleA, sampleTempleB]
          (sampleQuery [] SortOption.oldest)).reverse
        = rankedTemples [sampleTempleA, sampleTempleB]
          (sampleQuery [] SortOption.newest)) := by decide

/-- C4 amended: when the retained temples have pairwise distinct founding
years, sorting by `oldest` and reversing yields exactly the `newest`
ordering (without that hypothesis the two sides are still permutations of
each other but may order tied founding years differently). -/
theorem claim_C4_amended (catalog : List Temple) (qs : QueryState)
    (hdistinct : (catalog.filter (fun t => matchesFilters t (selections qs))).Pairwise
      (fun t t' => t.founded ≠ t'.founded)) :
    (rankedTemples catalog { qs with sortOrder := SortOption.oldest }).reverse
      = rankedTemples catalog { qs with sortOrder := SortOption.newest } := by
  have hsel : ∀ so, selections { qs with sortOrder := so } = selections qs := fun _ => rfl
  simp only [rankedTemples, hsel]
  set L := (catalog.map (fun temple =>
      (temple, scoreTemple temple (normalizeQuery qs.searchTerm)))).filter
      (fun p => matchesFilters p.1 (selections qs)) with hL
  have hLpair : L.Pairwise (fun p p' : Temple × ℚ => p.1.founded ≠ p'.1.founded) := by
    have hmap : L.map Prod.fst
        = catalog.filter (fun t => matchesFilters t (selections qs)) := by
      rw [hL]
      exact map_fst_filter_map catalog
        (fun t => scoreTemple t (normalizeQuery qs.searchTerm))
        (fun t => matchesFilters t (selections qs))
    have := hmap ▸ hdistinct
    exact (List.pairwise_map (R := fun t t' : Temple => t.founded ≠ t'.founded)).1 this
  have hmemL : ∀ x ∈ (List.insertionSort (sortKeep SortOption.oldest) L).reverse, x ∈ L := by
    intro x hx
    rw [List.mem_reverse, List.mem_insertionSort] at hx
    exact hx
  refine eq_of_perm_of_sorted_mem (r := sortKeep SortOption.newest) ?_ ?_ ?_ ?_
  · intro x hx y hy hxy hyx
    have hfe : x.1.founded = y.1.founded :=
      le_antisymm (by exact hyx) (by exact hxy)
    by_contra hne
    have hsymm : Symmetric (fun p p' : Temple × ℚ => p.1.founded ≠ p'.1.founded) :=
      fun p p' h hEq => h hEq.symm
    exact (hLpair.forall hsymm (hmemL x hx) (hmemL y hy) hne) hfe
  · exact (List.reverse_perm _).trans ((List.perm_insertionSort _ _).trans
      (List.perm_insertionSort (sortKeep SortOption.newest) L).symm)
  · rw [List.Sorted, List.pairwise_reverse]
    exact List.sorted_insertionSort (sortKeep SortOption.oldest) L
  · exact List.sorted_insertionSort (sortKeep SortOption.newest) L

/-- Witness for C4 amended: two temples with distinct founding years. -/
theorem claim_C4_witness :
    (rankedTemples [sampleTempleA, sampleTempleC]
        { sampleQuery [] SortOption.relevance with sortOrder := SortOption.oldest }).reverse
      = rankedTemples [sampleTempleA, sampleTempleC]
        { sampleQuery [] SortOption.relevance with sortOrder := SortOption.newest } :=
  claim_C4_amended [sampleTempleA, sampleTempleC] (sampleQuery [] SortOption.relevance)
    (by decide)

/-! ### The catalog indexer -/

/-- The index of the first occurrence of `v` in `l`. -/
def firstIdx {α : Type} [DecidableEq α] (l : List α) (v : α) : Nat := List.indexOf v l

lemma firstIdx_cons_self {α : Type} [DecidableEq α] (a : α) (l : List α) :
    firstIdx (a :: l) a = 0 := List.indexOf_cons_self a l

lemma firstIdx_cons_ne {α : Type} [DecidableEq α] {a b : α} (l : List α) (h : b ≠ a) :
    firstIdx (b :: l) a = (firstIdx l a) + 1 := List.indexOf_cons_ne l h

lemma mem_dedupFirst {α : Type} [DecidableEq α] (v : α) :
    ∀ l : List α, v ∈ dedupFirst l ↔ v ∈ l := by
  intro l
  induction l using dedupFirst.induct with
  | case1 => simp [dedupFirst]
  | case2 a l ih =>
    simp only [dedupFirst, List.mem_cons, ih, List.mem_filter, decide_eq_true_eq]
    by_cases hv : v = a <;> simp [hv]

/-- Positions of first occurrences are preserved by filtering: if both
survivors appear in the filtered list in a given order of first occurrence,
they appear in the same order in the original list. -/
lemma firstIdx_filter_lt {α : Type} [DecidableEq α] (p : α → Bool) :
    ∀ (l : List α) (b c : α), b ∈ l.filter p → c ∈ l.filter p →
      firstIdx (l.filter p) b < firstIdx (l.filter p) c → firstIdx l b < firstIdx l c := by
  intro l
  induction l with
  | nil => intro b c hb _ _; simp at hb
  | cons a l ih =>
    intro b c hb hc hlt
    by_cases hpa : p a
    · rw [List.filter_cons_of_pos hpa] at hb hc hlt
      by_cases hba : b = a
      · subst hba
        have hca : c ≠ b := by
          intro h
          rw [h, firstIdx_cons_self] at hlt
          exact Nat.not_lt_zero _ hlt
        rw [firstIdx_cons_self, firstIdx_cons_ne _ (Ne.symm hca)]
        exact Nat.succ_pos _
      · have hca : c ≠ a := by
          intro h
          rw [h, firstIdx_cons_self] at hlt
          exact Nat.not_lt_zero _ hlt
        rw [firstIdx_cons_ne _ (Ne.symm hba), firstIdx_cons_ne _ (Ne.symm hca)] at hlt
        rw [firstIdx_cons_ne _ (Ne.symm hba), firstIdx_cons_ne _ (Ne.symm hca)]
        have hb' : b ∈ l.filter p := by
          rcases List.mem_cons.1 hb with h | h
          · exact absurd h hba
          · exact h
        have hc' : c ∈ l.filter p := by
          rcases List.mem_cons.1 hc with h | h
          · exact absurd h hca
          · exact h
        exact Nat.succ_lt_succ (ih b c hb' hc' (Nat.lt_of_succ_lt_succ hlt))
    · rw [List.filter_cons_of_neg hpa] at hb hc hlt
      have hba : b ≠ a := fun h => hpa (h ▸ (List.mem_filter.1 hb).2)
      have hca : c ≠ a := fun h => hpa (h ▸ (List.mem_filter.1 hc).2)
      rw [firstIdx_cons_ne _ (Ne.symm hba), firstIdx_cons_ne _ (Ne.symm hca)]
      exact Nat.succ_lt_succ (ih b c hb hc hlt)

/-- The first-seen deduplication lists its values in strictly increasing
order of first occurrence in the input. -/
lemma dedupFirst_pairwise_firstIdx {α : Type} [DecidableEq α] :
    ∀ l : List α, (dedupFirst l).Pairwise (fun a b => firstIdx l a < firstIdx l b) := by
  intro l
  induction l using dedupFirst.induct with
  | case1 => simp [dedupFirst]
  | case2 a l ih =>
    simp only [dedupFirst]
    refine List.Pairwise.cons ?_ ?_
    · intro b hb
      have hbf : b ∈ l.filter (fun x => decide (x ≠ a)) := (mem_dedupFirst b _).1 hb
      have hbl := List.mem_filter.1 hbf
      rw [decide_eq_true_eq] at hbl
      rw [firstIdx_cons_self, firstIdx_cons_ne _ (Ne.symm hbl.2)]
      exact Nat.succ_pos _
    · refine List.Pairwise.imp_of_mem ?_ ih
      intro b c hbmem hcmem hlt
      have hbf : b ∈ l.filter (fun x => decide (x ≠ a)) := (mem_dedupFirst b _).1 hbmem
      have hcf : c ∈ l.filter (fun x => decide (x ≠ a)) := (mem_dedupFirst c _).1 hcmem
      have hbl := List.mem_filter.1 hbf
      have hcl := List.mem_filter.1 hcf
      rw [decide_eq_true_eq] at hbl hcl
      have hmono := firstIdx_filter_lt _ l b c hbf hcf hlt
      rw [firstIdx_cons_ne _ (Ne.symm hbl.2), firstIdx_cons_ne _ (Ne.symm hcl.2)]
      exact Nat.succ_lt_succ hmono

lemma dedupFirst_nodup {α : Type} [DecidableEq α] (l : List α) : (dedupFirst l).Nodup := by
  refine (dedupFirst_pairwise_firstIdx l).imp ?_
  intro a b h
  intro heq
  subst heq
  exact lt_irrefl _ h

/-- C8: for every catalog, each facet list is the `All` sentinel followed by
the distinct values present; region, tradition and environment lists keep
first-seen catalog order, the feature list (flattened before deduping) is
alphabetically sorted and duplicate-free, and the empty catalog yields only
the sentinel. -/
theorem claim_C8_indexer (catalog : List Temple) :
    ((regions catalog).head? = some ALL_OPTION
      ∧ ((regions catalog).tail.Pairwise (fun a b =>
          firstIdx (catalog.map (fun t => t.region)) a
            < firstIdx (catalog.map (fun t => t.region)) b))
      ∧ (∀ v, v ∈ (regions catalog).tail ↔ ∃ t ∈ catalog, t.region = v))
    ∧ ((traditions catalog).head? = some ALL_OPTION
      ∧ ((traditions catalog).tail.Pairwise (fun a b =>
          firstIdx (catalog.map (fun t => t.tradition)) a
            < firstIdx (catalog.map (fun t => t.tradition)) b))
      ∧ (∀ v, v ∈ (traditions catalog).tail ↔ ∃ t ∈ catalog, t.tradition = v))
    ∧ ((environments catalog).head? = some ALL_OPTION
      ∧ ((environments catalog).tail.Pairwise (fun a b =>
          firstIdx (catalog.map (fun t => t.environment)) a
            < firstIdx (catalog.map (fun t => t.environment)) b))
      ∧ (∀ v, v ∈ (environments catalog).tail ↔ ∃ t ∈ catalog, t.environment = v))
    ∧ ((features catalog).head? = some ALL_OPTION
      ∧ (features catalog).tail.Sorted (· ≤ ·)
      ∧ (features catalog).tail.Nodup
      ∧ (∀ v, v ∈ (features catalog).tail ↔ ∃ t ∈ catalog, v ∈ t.features))
    ∧ (regions [] = [ALL_OPTION] ∧ traditions [] = [ALL_OPTION]
      ∧ environments [] = [ALL_OPTION] ∧ features [] = [ALL_OPTION]) := by
  refine ⟨⟨rfl, dedupFirst_pairwise_firstIdx _, fun v => ?_⟩,
    ⟨rfl, dedupFirst_pairwise_firstIdx _, fun v => ?_⟩,
    ⟨rfl, dedupFirst_pairwise_firstIdx _, fun v => ?_⟩,
    ⟨rfl, List.sorted_insertionSort _ _, ?_, fun v => ?_⟩, ?_, ?_, ?_, ?_⟩
  · rw [show (regions catalog).tail = dedupFirst (catalog.map (fun t => t.region)) from rfl,
      mem_dedupFirst, List.mem_map]
  · rw [show (traditions catalog).tail
        = dedupFirst (catalog.map (fun t => t.tradition)) from rfl,
      mem_dedupFirst, List.mem_map]
  · rw [show (environments catalog).tail
        = dedupFirst (catalog.map (fun t => t.environment)) from rfl,
      mem_dedupFirst, List.mem_map]
  · exact (List.perm_insertionSort _ _).nodup_iff.2
      (dedupFirst_nodup (catalog.flatMap (fun temple => temple.features)))
  · rw [show (features catalog).tail = (dedupFirst
        (catalog.flatMap (fun temple => temple.features))).insertionSort (· ≤ ·) from rfl,
      List.mem_insertionSort, mem_dedupFirst, List.mem_flatMap]
  · simp [regions, dedupFirst]
  · simp [traditions, dedupFirst]
  · simp [environments, dedupFirst]
  · simp [features, dedupFirst]

/-! ### The insight aggregator's tie-break -/

/-- Occurrence count of `v` in `l`. -/
def countKey {α : Type} [DecidableEq α] (l : List α) (v : α) : Nat := List.count v l

lemma countKey_append_singleton {α : Type} [DecidableEq α] (l : List α) (k v : α) :
    countKey (l ++ [k]) v = countKey l v + if v = k then 1 else 0 := by
  by_cases h : v = k
  · subst h
    simp [countKey, List.count_append, List.count_cons]
  · simp [countKey, List.count_append, List.count_cons, h, Ne.symm h]

lemma countKey_eq_zero {α : Type} [DecidableEq α] {l : List α} {v : α} (h : v ∉ l) :
    countKey l v = 0 := by
  simp [countKey, List.count_eq_zero, h]

lemma dedupFirst_append_singleton {α : Type} [DecidableEq α] (k : α) :
    ∀ l : List α,
      dedupFirst (l ++ [k]) = if k ∈ l then dedupFirst l else dedupFirst l ++ [k] := by
  intro l
  induction l using dedupFirst.induct with
  | case1 => simp [dedupFirst]
  | case2 a l ih =>
    simp only [List.cons_append, dedupFirst, List.filter_append]
    by_cases hk : k = a
    · subst hk
      simp [List.filter]
    · have hfk : List.filter (fun b => decide (b ≠ a)) [k] = [k] := by
        simp [List.filter, hk]
      rw [hfk, ih]
      have hmemf : k ∈ List.filter (fun b => decide (b ≠ a)) l ↔ k ∈ l := by
        simp [List.mem_filter, hk]
      by_cases hkl : k ∈ l
      · rw [if_pos (hmemf.2 hkl), if_pos (by simp [hkl])]
      · rw [if_neg (fun h => hkl (hmemf.1 h)), if_neg (by simp [hkl, hk])]

lemma bump_map_mem {α : Type} [DecidableEq α] (k : α) :
    ∀ (vs : List α) (g : α → Nat), k ∈ vs → vs.Nodup →
      bump (vs.map (fun v => (v, g v))) k
        = vs.map (fun v => (v, if v = k then g v + 1 else g v)) := by
  intro vs
  induction vs with
  | nil => intro g hk _; cases hk
  | cons x vs ih =>
    intro g hk hnd
    simp only [List.map_cons, bump]
    by_cases hkx : k = x
    · rw [if_pos hkx]
      subst hkx
      have hknotin : k ∉ vs := (List.nodup_cons.1 hnd).1
      simp only [if_pos rfl]
      congr 1
      refine (List.map_congr_left ?_).symm
      intro v hv
      have hvk : ¬ v = k := fun h => hknotin (h ▸ hv)
      simp [hvk]
    · rw [if_neg hkx]
      have hk' : k ∈ vs := by
        rcases List.mem_cons.1 hk with h | h
        · exact absurd h hkx
        · exact h
      rw [ih g hk' (List.nodup_cons.1 hnd).2]
      have hxk : ¬ x = k := fun h => hkx h.symm
      simp [hxk]

lemma bump_map_not_mem {α : Type} [DecidableEq α] (k : α) :
    ∀ (vs : List α) (g : α → Nat), k ∉ vs →
      bump (vs.map (fun v => (v, g v))) k = vs.map (fun v => (v, g v)) ++ [(k, 1)] := by
  intro vs
  induction vs with
  | nil => intro g _; rfl
  | cons x vs ih =>
    intro g hk
    simp only [List.map_cons, bump]
    have hkx : ¬ k = x := fun h => hk (h ▸ List.mem_cons_self x vs)
    rw [if_neg hkx, ih g (fun h => hk (List.mem_cons_of_mem x h))]
    rfl

/-- The count accumulator lists each distinct key once, in first-occurrence
order, paired with its total occurrence count. -/
lemma countsOf_eq_map {α : Type} [DecidableEq α] (ks : List α) :
    countsOf ks = (dedupFirst ks).map (fun v => (v, countKey ks v)) := by
  induction ks using List.reverseRecOn with
  | nil => simp [countsOf, dedupFirst]
  | append_singleton ks k ih =>
    have hstep : countsOf (ks ++ [k]) = bump (countsOf ks) k := by
      simp [countsOf, List.foldl_append]
    rw [hstep, ih, dedupFirst_append_singleton]
    by_cases hk : k ∈ ks
    · rw [if_pos hk]
      have hkd : k ∈ dedupFirst ks := (mem_dedupFirst k ks).2 hk
      rw [bump_map_mem k (dedupFirst ks) (fun v => countKey ks v) hkd (dedupFirst_nodup ks)]
      refine List.map_congr_left ?_
      intro v _
      by_cases hvk : v = k
      · subst hvk
        simp [countKey_append_singleton]
      · simp [countKey_append_singleton, hvk]
    · rw [if_neg hk]
      have hkd : k ∉ dedupFirst ks := fun h => hk ((mem_dedupFirst k ks).1 h)
      rw [bump_map_not_mem k (dedupFirst ks) (fun v => countKey ks v) hkd, List.map_append]
      congr 1
      · refine List.map_congr_left ?_
        intro v hv
        have hvk : v ≠ k := fun h => hk (h ▸ (mem_dedupFirst v ks).1 hv)
        simp [countKey_append_singleton, hvk]
      · simp [countKey_append_singleton, countKey_eq_zero hk]

instance sndGeTotal {α : Type} : IsTotal (α × Nat) (fun a b => b.2 ≤ a.2) :=
  ⟨fun a b => le_total b.2 a.2⟩

instance sndGeTrans {α : Type} : IsTrans (α × Nat) (fun a b => b.2 ≤ a.2) :=
  ⟨fun _ _ _ h1 h2 => le_trans h2 h1⟩

/-- In a list that is pairwise ordered by an asymmetric relation, any two
members related by it form a sublist in that order. -/
lemma pair_sublist_of_pairwise {α : Type} {q : α → α → Prop} {a b : α}
    (hasym : ∀ x y, q x y → ¬ q y x) :
    ∀ {l : List α}, l.Pairwise q → a ∈ l → b ∈ l → q a b → [a, b].Sublist l := by
  intro l
  induction l with
  | nil => intro _ ha; cases ha
  | cons x l ih =>
    intro hpw ha hb hq
    rcases List.mem_cons.1 ha with rfl | ha'
    · rcases List.mem_cons.1 hb with rfl | hb'
      · exact absurd hq (hasym _ _ hq)
      · exact List.Sublist.cons₂ _ (List.singleton_sublist.2 hb')
    · rcases List.mem_cons.1 hb with rfl | hb'
      · exact absurd hq (hasym _ _ ((List.pairwise_cons.1 hpw).1 a ha'))
      · exact ((ih (List.pairwise_cons.1 hpw).2 ha' hb' hq).cons x)

/-- The head of the stably count-sorted accumulator: it is a key of maximal
occurrence count, and among the keys of maximal count it is the one whose
first occurrence in the input comes earliest. -/
lemma pickTop_countsOf_spec {α : Type} [DecidableEq α] (ks : List α) (hne : ks ≠ []) :
    ∃ v, pickTop (countsOf ks) = some v ∧ v ∈ ks ∧
      (∀ w ∈ ks, countKey ks w ≤ countKey ks v) ∧
      (∀ w ∈ ks, countKey ks w = countKey ks v → firstIdx ks v ≤ firstIdx ks w) := by
  have hentries := countsOf_eq_map ks
  have hdne : dedupFirst ks ≠ [] := by
    cases ks with
    | nil => exact absurd rfl hne
    | cons a t => simp [dedupFirst]
  have hene : countsOf ks ≠ [] := by
    rw [hentries]
    simpa using hdne
  have hmem_entries : ∀ p ∈ countsOf ks, p.1 ∈ ks ∧ p.2 = countKey ks p.1 := by
    intro p hp
    rw [hentries] at hp
    obtain ⟨v, hv, rfl⟩ := List.mem_map.1 hp
    exact ⟨(mem_dedupFirst v ks).1 hv, rfl⟩
  have hall : ∀ w ∈ ks, (w, countKey ks w) ∈ countsOf ks := by
    intro w hw
    rw [hentries]
    exact List.mem_map.2 ⟨w, (mem_dedupFirst w ks).2 hw, rfl⟩
  have hpw : (countsOf ks).Pairwise
      (fun p q : α × Nat => firstIdx ks p.1 < firstIdx ks q.1) := by
    rw [hentries]
    exact List.pairwise_map.2 (dedupFirst_pairwise_firstIdx ks)
  have hnodup : (countsOf ks).Nodup := by
    refine hpw.imp ?_
    intro a b h heq
    rw [heq] at h
    exact lt_irrefl _ h
  have hsperm : ((countsOf ks).insertionSort (fun a b : α × Nat => b.2 ≤ a.2)).Perm
      (countsOf ks) := List.perm_insertionSort _ _
  have hsorted : ((countsOf ks).insertionSort (fun a b : α × Nat => b.2 ≤ a.2)).Sorted
      (fun a b : α × Nat => b.2 ≤ a.2) := List.sorted_insertionSort _ _
  obtain ⟨e, rest, hcase⟩ : ∃ e rest,
      (countsOf ks).insertionSort (fun a b : α × Nat => b.2 ≤ a.2) = e :: rest := by
    cases hq : (countsOf ks).insertionSort (fun a b : α × Nat => b.2 ≤ a.2) with
    | nil =>
      rw [hq] at hsperm
      exact absurd hsperm.nil_eq.symm hene
    | cons e rest => exact ⟨e, rest, rfl⟩
  have he : e ∈ countsOf ks := hsperm.subset (hcase ▸ List.mem_cons_self e rest)
  have heks := hmem_entries e he
  refine ⟨e.1, ?_, heks.1, ?_, ?_⟩
  · simp [pickTop, hcase]
  · intro w hw
    have hwmem : (w, countKey ks w) ∈ e :: rest := by
      rw [← hcase]
      exact hsperm.mem_iff.2 (hall w hw)
    rcases List.mem_cons.1 hwmem with heq | hmemr
    · rw [show countKey ks w = e.2 from congrArg Prod.snd heq, heks.2]
    · have hrel := List.rel_of_sorted_cons (hcase ▸ hsorted) _ hmemr
      rw [← heks.2]
      exact hrel
  · intro w hw heqc
    by_cases hwe : w = e.1
    · rw [hwe]
    have hp : (w, countKey ks w) ∈ countsOf ks := hall w hw
    have hpne : (w, countKey ks w) ≠ e := by
      intro h
      exact hwe (congrArg Prod.fst h)
    by_contra hcon
    push_neg at hcon
    have hlt : firstIdx ks w < firstIdx ks e.1 := hcon
    have hasym : ∀ x y : α × Nat,
        (firstIdx ks x.1 < firstIdx ks y.1) → ¬ (firstIdx ks y.1 < firstIdx ks x.1) :=
      fun x y hxy hyx => lt_irrefl _ (lt_trans hxy hyx)
    have hpair : [(w, countKey ks w), e].Sublist (countsOf ks) :=
      pair_sublist_of_pairwise hasym hpw hp he hlt
    have hr : (fun a b : α × Nat => b.2 ≤ a.2) (w, countKey ks w) e := by
      show e.2 ≤ countKey ks w
      rw [heks.2, ← heqc]
    have hsub := List.pair_sublist_insertionSort (r := fun a b : α × Nat => b.2 ≤ a.2) hr hpair
    rw [hcase] at hsub
    have herest : e ∈ rest := by
      cases hsub with
      | cons _ h => exact h.subset (List.mem_cons_of_mem _ (List.mem_cons_self e []))
      | cons₂ _ h => exact absurd rfl hpne
    have hnodup' : (e :: rest).Nodup := by
      rw [← hcase]
      exact hsperm.nodup_iff.2 hnodup
    exact (List.nodup_cons.1 hnodup').1 herest

/-- C10: over a non-empty result list, the most-common-tradition and
standout-feature aggregates return the value of maximal occurrence count
whose first occurrence comes earliest in the result-list enumeration order
(insertion order into the count accumulator, preserved by the stable
descending sort on counts). -/
theorem claim_C10_tie_break (results : List (Temple × ℚ)) :
    (results.map (fun p => p.1.tradition) ≠ [] →
      ∃ v, mostCommonTradition results = some v
        ∧ v ∈ results.map (fun p => p.1.tradition)
        ∧ (∀ w ∈ results.map (fun p => p.1.tradition),
            countKey (results.map (fun p => p.1.tradition)) w
              ≤ countKey (results.map (fun p => p.1.tradition)) v)
        ∧ (∀ w ∈ results.map (fun p => p.1.tradition),
            countKey (results.map (fun p => p.1.tradition)) w
              = countKey (results.map (fun p => p.1.tradition)) v →
            firstIdx (results.map (fun p => p.1.tradition)) v
              ≤ firstIdx (results.map (fun p => p.1.tradition)) w)) ∧
    (results.flatMap (fun p => p.1.features) ≠ [] →
      ∃ v, standoutFeature results = some v
        ∧ v ∈ results.flatMap (fun p => p.1.features)
        ∧ (∀ w ∈ results.flatMap (fun p => p.1.features),
            countKey (results.flatMap (fun p => p.1.features)) w
              ≤ countKey (results.flatMap (fun p => p.1.features)) v)
        ∧ (∀ w ∈ results.flatMap (fun p => p.1.features),
            countKey (results.flatMap (fun p => p.1.features)) w
              = countKey (results.flatMap (fun p => p.1.features)) v →
            firstIdx (results.flatMap (fun p => p.1.features)) v
              ≤ firstIdx (results.flatMap (fun p => p.1.features)) w)) :=
  ⟨fun h => pickTop_countsOf_spec _ h, fun h => pickTop_countsOf_spec _ h⟩

/-- Witness for C10: the two sample temples tie 1–1 on traditions and on
features; the aggregates pick the values occurring first in result order. -/
theorem claim_C10_witness :
    mostCommonTradition [(sampleTempleA, (10:ℚ)), (sampleTempleB, 10)] = some ['t']
      ∧ standoutFeature [(sampleTempleA, (10:ℚ)), (sampleTempleB, 10)] = some ['a', 'b']
      ∧ firstIdx [['t'], ['s']] ['t'] ≤ firstIdx [['t'], ['s']] ['s'] := by
  have h := claim_C10_tie_break [(sampleTempleA, (10:ℚ)), (sampleTempleB, 10)]
  obtain ⟨v, hv, -, -, htie⟩ := h.1 (by decide)
  have hv' : v = ['t'] := by
    have hc : mostCommonTradition [(sampleTempleA, (10:ℚ)), (sampleTempleB, 10)]
        = some ['t'] := by decide
    rw [hc] at hv
    exact (Option.some_inj.1 hv).symm
  subst hv'
  exact ⟨by decide, by decide, htie ['s'] (by decide) (by decide)⟩

end TempleFinder
